import Mathlib

/-
Verification of the FINDER_ND dismantling engine (server/dismantling_engine.py).

The embedding mirrors the Python source.  A networkx graph is modelled as the
ordered list of its nodes (dict insertion order) together with the ordered list
of its undirected edges, each stored once as a pair.  Python floats are
modelled as exact rationals.  A Python function that can raise returns an
Option / Except value, with none / error standing for the raised exception.
-/

namespace Dismantling

/-- A networkx graph: nodes in insertion order, undirected edges in insertion
order, each edge stored once as an ordered pair. -/
structure Graph where
  nodes : List Nat
  edges : List (Nat × Nat)
deriving Repr, DecidableEq

/-- The invariants networkx maintains for every graph: the node list has no
duplicates, and every edge endpoint is a node of the graph. -/
def WellFormed (g : Graph) : Prop :=
  g.nodes.Nodup ∧ ∀ e ∈ g.edges, e.1 ∈ g.nodes ∧ e.2 ∈ g.nodes

instance (g : Graph) : Decidable (WellFormed g) := by
  unfold WellFormed; infer_instance

/-- `g.remove_node(v)`: drop the node and all incident edges. -/
def removeNode (g : Graph) (v : Nat) : Graph :=
  ⟨g.nodes.filter fun u => decide (u ≠ v),
   g.edges.filter fun e => decide (e.1 ≠ v ∧ e.2 ≠ v)⟩

/-- `g.degree()[v]`: each incident edge counts once per endpoint equal to `v`
(so a self-loop contributes 2, as in networkx). -/
def degree (g : Graph) (v : Nat) : Nat :=
  g.edges.foldl (fun d e => d + (if e.1 = v then 1 else 0) + (if e.2 = v then 1 else 0)) 0

/-- The neighbours of `u`: the opposite endpoint of every edge incident to `u`. -/
def neighbors (g : Graph) (u : Nat) : List Nat :=
  g.edges.filterMap fun e =>
    if e.1 = u then some e.2 else if e.2 = u then some e.1 else none

/-- Fuelled breadth-first traversal collecting every vertex reachable from the
queue; mirrors the full-traversal component computation of
`nx.connected_components`. -/
def reachAux (g : Graph) : Nat → List Nat → List Nat → List Nat
  | 0, visited, _ => visited
  | _ + 1, visited, [] => visited
  | fuel + 1, visited, u :: queue =>
    if u ∈ visited then reachAux g fuel visited queue
    else reachAux g fuel (u :: visited) (queue ++ neighbors g u)

/-- The connected component of `v`, by breadth-first traversal.  The fuel is
an upper bound on the number of queue pops the traversal can perform. -/
def componentOf (g : Graph) (v : Nat) : List Nat :=
  reachAux g ((g.nodes.length + 2 * g.edges.length + 1) * (g.edges.length + 1) + 1) [] [v]

/-- `len(max(nx.connected_components(g), key=len))`: the size of the largest
connected component, as the maximum over all nodes of the size of their
component.  (The Python call raises on a graph with no nodes; callers guard.) -/
def largestCC (g : Graph) : Nat :=
  (g.nodes.map fun v => (componentOf g v).length).foldl max 0

/-- `nx.number_connected_components(g)`: count the nodes that are the minimum
of their own component, one per component. -/
def numComponents (g : Graph) : Nat :=
  (g.nodes.filter fun v => (componentOf g v).all fun u => decide (v ≤ u)).length

/-- `np.trapz` with unit spacing: the trapezoidal-rule area under the sample
sequence, `Σ (y i + y (i+1)) / 2`. -/
def trapz : List Nat → ℚ
  | [] => 0
  | a :: rest =>
    match rest with
    | [] => 0
    | b :: _ => ((a : ℚ) + (b : ℚ)) / 2 + trapz rest

/-- One entry of `removal_sequence` in `_calculate_metrics`. -/
structure StepRecord where
  step : Nat
  nodeRemoved : Nat
  remainingNodes : Nat
  remainingEdges : Nat
  largestCCSize : Nat
  largestCCRatio : ℚ
deriving Repr, DecidableEq

/-- The removal loop of `DismantlingEngine._calculate_metrics`: walk the
solution with its enumeration index `i`; skip ids that are not present;
otherwise remove the node, recompute the largest component (0 when no nodes
remain) and emit a StepRecord whose `step` is `i + 1`. -/
def replay (originalLargestCC : Nat) : List Nat → Nat → Graph → List StepRecord
  | [], _, _ => []
  | node :: rest, i, g =>
    if node ∈ g.nodes then
      let g' := removeNode g node
      let cc := if g'.nodes.length > 0 then largestCC g' else 0
      ⟨i + 1, node, g'.nodes.length, g'.edges.length, cc,
        if originalLargestCC > 0 then (cc : ℚ) / (originalLargestCC : ℚ) else 0⟩ ::
        replay originalLargestCC rest (i + 1) g'
    else replay originalLargestCC rest (i + 1) g

/-- The dictionary returned by `_calculate_metrics`. -/
structure Metrics where
  nodesRemoved : Nat
  removalRatio : ℚ
  finalLargestCC : Nat
  largestCCReduction : ℚ
  robustness : ℚ
  removalSequence : List StepRecord
  largestCCEvolution : List Nat
deriving Repr, DecidableEq

/-- Body of `DismantlingEngine._calculate_metrics` after the original largest
component has been computed successfully (i.e. the graph has a node). -/
def metricsCore (g : Graph) (sol : List Nat) : Metrics :=
  let originalLargestCC := largestCC g
  let removalSequence := replay originalLargestCC sol 0 g
  let largestCCSizes := removalSequence.map (·.largestCCSize)
  let finalLargestCC := largestCCSizes.getLast?.getD originalLargestCC
  ⟨sol.length,
   (sol.length : ℚ) / (g.nodes.length : ℚ),
   finalLargestCC,
   ((originalLargestCC : ℚ) - (finalLargestCC : ℚ)) / (originalLargestCC : ℚ),
   if largestCCSizes.isEmpty then 1
   else trapz largestCCSizes / ((largestCCSizes.length : ℚ) * (originalLargestCC : ℚ)),
   removalSequence,
   largestCCSizes⟩

/-- `DismantlingEngine._calculate_metrics`.  On a graph with no nodes the very
first statement, `len(max(nx.connected_components(g), key=len))`, raises
`ValueError: max() arg is an empty sequence`; this is modelled by `none`. -/
def calcMetrics (g : Graph) (sol : List Nat) : Option Metrics :=
  if g.nodes.isEmpty then none else some (metricsCore g sol)

/-- `DismantlingEngine._preprocess_graph`: copy, strip self-loops, and if the
sorted node labels are not already `0..n-1`, relabel nodes by their rank in
the sorted order (node order of the copy is preserved by `nx.relabel_nodes`).
The function has no failure path: a zero-node graph is returned unchanged. -/
def preprocess (g : Graph) : Graph :=
  let g1 : Graph := ⟨g.nodes, g.edges.filter fun e => decide (e.1 ≠ e.2)⟩
  let sortedNodes := List.insertionSort (· ≤ ·) g1.nodes
  if sortedNodes = List.range sortedNodes.length then g1
  else
    ⟨g1.nodes.map fun v => sortedNodes.indexOf v,
     g1.edges.map fun e => (sortedNodes.indexOf e.1, sortedNodes.indexOf e.2)⟩

/-- `max(degrees, key=degrees.get)` in `_high_degree_attack`: Python's `max`
scans the dict keys in node insertion order and replaces the current best only
on a strictly larger key value, so the first node attaining the maximum degree
wins ties.  `pickBetter` is one comparison of that scan. -/
def pickBetter (g : Graph) (best : Option Nat) (v : Nat) : Option Nat :=
  match best with
  | none => some v
  | some b => if degree g v > degree g b then some v else some b

/-- `max(degrees, key=degrees.get)`: scan the nodes in order, keeping the
first node of maximum degree. -/
def argmaxDegree (g : Graph) : Option Nat :=
  g.nodes.foldl (pickBetter g) none

/-- The loop body of `DismantlingEngine._high_degree_attack`, fuelled by the
number of remaining iterations.  While edges remain, pick the maximum-degree
node (`argmaxDegree`; the `none` case mirrors `if not degrees: break`), append
it and remove it. -/
def hdaAux : Nat → Graph → List Nat
  | 0, _ => []
  | fuel + 1, g =>
    if g.edges.length > 0 then
      match argmaxDegree g with
      | none => []
      | some v => v :: hdaAux fuel (removeNode g v)
    else []

/-- `DismantlingEngine._high_degree_attack`.  Each iteration removes one node,
so the node count bounds the number of iterations. -/
def highDegreeAttack (g : Graph) : List Nat :=
  hdaAux g.nodes.length g

/-- The result dictionary built by `DismantlingEngine.dismantle`.  The
wall-clock `execution_time` is not modelled and is recorded as 0. -/
structure DismantleResult where
  solution : List Nat
  metrics : Metrics
  executionTime : ℚ
  iterations : Nat
  originalNodes : Nat
  originalEdges : Nat
deriving Repr, DecidableEq

/-- `DismantlingEngine.dismantle`: preprocess a copy, obtain the removal
sequence from the model (`model.EvaluateRealData`), then score the solution
against the original graph.  `maxIterations` is received but never used by the
source: `_execute_dismantling` ignores it and `_calculate_metrics` replays the
whole solution.  `none` models the `ValueError` escaping from
`_calculate_metrics` on a zero-node graph. -/
def dismantle (evaluate : Graph → ℚ → List Nat × ℚ) (graph : Graph)
    (stepRatio : ℚ) (maxIterations : Nat) : Option DismantleResult :=
  let originalGraph := graph
  let processedGraph := preprocess graph
  let solution := (evaluate processedGraph stepRatio).1
  match calcMetrics originalGraph solution with
  | none => none
  | some m =>
    some ⟨solution, m, 0, solution.length,
          originalGraph.nodes.length, originalGraph.edges.length⟩

/-- One entry of the list built by `_generate_step_by_step_data`. -/
structure VizStep where
  step : Nat
  nodeRemoved : Option Nat
  remainingNodes : List Nat
  remainingEdges : List (Nat × Nat)
  largestCCSize : Nat
  numComponents : Nat
deriving Repr, DecidableEq

/-- The removal loop of `_generate_step_by_step_data`: same skip logic and
`step = i + 1` indexing as `_calculate_metrics`, but recording the surviving
node and edge lists. -/
def vizSteps : List Nat → Nat → Graph → List VizStep
  | [], _, _ => []
  | node :: rest, i, g =>
    if node ∈ g.nodes then
      let g' := removeNode g node
      let cc := if g'.nodes.length > 0 then largestCC g' else 0
      ⟨i + 1, some node, g'.nodes, g'.edges, cc, numComponents g'⟩ ::
        vizSteps rest (i + 1) g'
    else vizSteps rest (i + 1) g

/-- `DismantlingEngine._generate_step_by_step_data`: an initial step-0 record
followed by one record per performed removal. -/
def genStepByStep (g : Graph) (sol : List Nat) : List VizStep :=
  let initialCC := if g.nodes.length > 0 then largestCC g else 0
  ⟨0, none, g.nodes, g.edges, initialCC, numComponents g⟩ :: vizSteps sol 0 g

/-- One entry of `model_configs` in `dismantle_multi_model` (after validation
fills in the default display name). -/
structure ModelConfig where
  id : String
  name : Option String
  stepRatio : ℚ
  maxIterations : Nat
deriving Repr, DecidableEq

/-- `config.get('name', model_id)`: a missing display name defaults to the id. -/
def configName (c : ModelConfig) : String := c.name.getD c.id

/-- The failure dictionary stored for a model whose run raised:
`error`, `model_id`, `model_name` (the `success: False` flag is carried by the
`Except.error` constructor). -/
structure FailureEntry where
  error : String
  modelId : String
  modelName : String
deriving Repr, DecidableEq

/-- A successful entry of the multi-model results: the `dismantle` result
dictionary extended with the `step_by_step` visualization data. -/
structure MultiRunSuccess where
  run : DismantleResult
  stepByStep : List VizStep
deriving Repr, DecidableEq

/-- `DismantlingEngine.dismantle` as called by the orchestrator, with the model
lookup (`model_manager.get_model`) folded in: an `error` is any exception
raised inside the per-model `try` block — a failing lookup or model, or the
`ValueError` that `_calculate_metrics` raises on a zero-node graph. -/
def dismantleE (models : String → Except String (Graph → ℚ → List Nat × ℚ))
    (graph : Graph) (modelName : String) (stepRatio : ℚ) (maxIterations : Nat) :
    Except String DismantleResult :=
  match models modelName with
  | .error e => .error e
  | .ok evaluate =>
    match dismantle evaluate graph stepRatio maxIterations with
    | none => .error "ValueError: max() arg is an empty sequence"
    | some r => .ok r

/-- One row of `comparison['summary']` in `_compare_model_results`. -/
structure SummaryRow where
  robustness : ℚ
  removalRatio : ℚ
  executionTime : ℚ
  nodesRemoved : Nat
  finalLargestCC : Nat
deriving Repr, DecidableEq

/-- The dictionary built by `_compare_model_results`. -/
structure Comparison where
  bestRobustness : Option String
  bestRemovalEfficiency : Option String
  bestExecutionTime : Option String
  summary : List (String × SummaryRow)
deriving Repr, DecidableEq

/-- `v < current best`, where `none` stands for the initial `float('inf')`. -/
def betterThan (v : ℚ) : Option ℚ → Bool
  | none => true
  | some c => decide (v < c)

/-- One iteration of the `_compare_model_results` loop: update the three
best-so-far trackers (strict improvement only, so the first model attaining a
best value keeps it) and append this model's summary row. -/
def compareFold (acc : (Option ℚ × Option ℚ × Option ℚ) × Comparison)
    (p : String × MultiRunSuccess) : (Option ℚ × Option ℚ × Option ℚ) × Comparison :=
  let bests := acc.1
  let comp := acc.2
  let metrics := p.2.run.metrics
  let robustness := metrics.robustness
  let removalRatio := metrics.removalRatio
  let executionTime := p.2.run.executionTime
  let r1 : Option ℚ × Comparison :=
    if betterThan robustness bests.1 then
      (some robustness, { comp with bestRobustness := some p.1 })
    else (bests.1, comp)
  let r2 : Option ℚ × Comparison :=
    if betterThan removalRatio bests.2.1 then
      (some removalRatio, { r1.2 with bestRemovalEfficiency := some p.1 })
    else (bests.2.1, r1.2)
  let r3 : Option ℚ × Comparison :=
    if betterThan executionTime bests.2.2 then
      (some executionTime, { r2.2 with bestExecutionTime := some p.1 })
    else (bests.2.2, r2.2)
  ((r1.1, r2.1, r3.1),
   { r3.2 with
      summary := r3.2.summary ++
        [(p.1, ⟨robustness, removalRatio, executionTime,
                metrics.nodesRemoved, metrics.finalLargestCC⟩)] })

/-- `DismantlingEngine._compare_model_results` over the successful runs, in
insertion order. -/
def compareModelResults (results : List (String × MultiRunSuccess)) : Comparison :=
  (results.foldl compareFold ((none, none, none), ⟨none, none, none, []⟩)).2

/-- The per-config body of the `dismantle_multi_model` loop: run the model,
attach the step-by-step data on success, or record the structured failure
entry instead of re-raising. -/
def runConfig (models : String → Except String (Graph → ℚ → List Nat × ℚ))
    (graph : Graph) (c : ModelConfig) : Except FailureEntry MultiRunSuccess :=
  match dismantleE models graph (configName c) c.stepRatio c.maxIterations with
  | .error e => .error ⟨e, c.id, configName c⟩
  | .ok r => .ok ⟨r, genStepByStep graph r.solution⟩

/-- The dictionary returned by `dismantle_multi_model`: per-model entries keyed
by id in config order, plus the optional `comparison` entry. -/
structure MultiResult where
  runs : List (String × Except FailureEntry MultiRunSuccess)
  comparison : Option Comparison

/-- `{k: v for k, v in results.items() if v.get('success', True)}`. -/
def successfulRuns (runs : List (String × Except FailureEntry MultiRunSuccess)) :
    List (String × MultiRunSuccess) :=
  runs.filterMap fun p =>
    match p.2 with
    | .ok r => some (p.1, r)
    | .error _ => none

/-- `DismantlingEngine.dismantle_multi_model`: run every config, isolating
failures per run, and add the comparative analysis only when more than one run
succeeded (`if len(successful_results) > 1`). -/
def dismantleMulti (models : String → Except String (Graph → ℚ → List Nat × ℚ))
    (graph : Graph) (configs : List ModelConfig) : MultiResult :=
  let runs := configs.map fun c => (c.id, runConfig models graph c)
  let successful := successfulRuns runs
  ⟨runs, if successful.length > 1 then some (compareModelResults successful) else none⟩

/-! ### Helper lemmas about the replay loop and the trapezoidal rule -/

theorem replay_length_le (cc : Nat) (sol : List Nat) :
    ∀ (i : Nat) (g : Graph), (replay cc sol i g).length ≤ sol.length := by
  induction sol with
  | nil => intro i g; simp [replay]
  | cons node rest ih =>
    intro i g
    by_cases h : node ∈ g.nodes
    · simp only [replay, if_pos h, List.length_cons]
      exact Nat.succ_le_succ (ih _ _)
    · simp only [replay, if_neg h, List.length_cons]
      exact Nat.le_succ_of_le (ih _ _)

theorem replay_steps_sublist (cc : Nat) (sol : List Nat) :
    ∀ (i : Nat) (g : Graph),
      ((replay cc sol i g).map (·.step)).Sublist (List.range' (i + 1) sol.length) := by
  induction sol with
  | nil => intro i g; simp [replay]
  | cons node rest ih =>
    intro i g
    rw [List.length_cons, List.range'_succ]
    by_cases h : node ∈ g.nodes
    · simp only [replay, if_pos h, List.map_cons]
      exact List.Sublist.cons₂ _ (ih (i + 1) _)
    · simp only [replay, if_neg h]
      exact List.Sublist.cons _ (ih (i + 1) _)

theorem trapz_eq_sum (l : List Nat) :
    trapz l = ∑ i in Finset.range (l.length - 1),
      (((l.getD i 0 : Nat) : ℚ) + ((l.getD (i + 1) 0 : Nat) : ℚ)) / 2 := by
  induction l with
  | nil => simp [trapz]
  | cons a rest ih =>
    cases rest with
    | nil => simp [trapz]
    | cons b t =>
      rw [show trapz (a :: b :: t) = ((a : ℚ) + (b : ℚ)) / 2 + trapz (b :: t) from rfl, ih]
      rw [show (a :: b :: t).length - 1 = ((b :: t).length - 1) + 1 by simp]
      rw [Finset.sum_range_succ']
      simp only [List.getD_cons_succ, List.getD_cons_zero]
      ring

/-! ### C2: step indices in the trace -/

/-- C2 counterexample: on the path graph 0-1 with removal sequence [5, 0], the
id 5 is skipped, and the single StepRecord emitted carries step index 2 (its
position in the input sequence plus one), while the claim predicts index 1
(records emitted so far plus one). -/
theorem C2_counterexample :
    (metricsCore ⟨[0, 1], [(0, 1)]⟩ [5, 0]).removalSequence.map (·.step) = [2] ∧
    (2 : Nat) ≠ 0 + 1 := by
  constructor
  · rfl
  · decide

/-- C2 amended: each StepRecord's step index equals one plus the 0-based
position in the removal sequence of the id that produced it, so the step
indices of a trace form a sublist of 1, 2, ..., sequence length — strictly
increasing, but skipping a value for every skipped id rather than staying
consecutive. -/
theorem C2_step_is_input_position (g : Graph) (sol : List Nat) :
    ((metricsCore g sol).removalSequence.map (·.step)).Sublist
      (List.range' 1 sol.length) :=
  replay_steps_sublist (largestCC g) sol 0 g

/-! ### C3: nodesRemoved -/

/-- C3 counterexample: on the one-node graph with removal sequence [5], no
node is removed (the trace is empty) yet `nodes_removed` is 1, the sequence
length — not the number of StepRecords. -/
theorem C3_counterexample :
    calcMetrics ⟨[0], []⟩ [5] = some (metricsCore ⟨[0], []⟩ [5]) ∧
    (metricsCore ⟨[0], []⟩ [5]).nodesRemoved = 1 ∧
    (metricsCore ⟨[0], []⟩ [5]).removalSequence.length = 0 ∧
    (1 : Nat) ≠ 0 := by
  refine ⟨rfl, rfl, rfl, ?_⟩
  decide

/-- C3 amended: `nodesRemoved` equals the length of the removal sequence
(skipped duplicates and absent ids are still counted), so it never exceeds the
sequence length; the trace itself has at most sequence-length records. -/
theorem C3_nodes_removed_counts_sequence (g : Graph) (sol : List Nat) :
    (metricsCore g sol).nodesRemoved = sol.length ∧
    (metricsCore g sol).removalSequence.length ≤ sol.length :=
  ⟨rfl, replay_length_le (largestCC g) sol 0 g⟩

/-! ### C8: the tracker on a zero-node graph -/

/-- C8: on a graph with zero nodes `_calculate_metrics` does not succeed with
`originalLargestCC = 0` — its first statement, `max` over the connected
components of the empty graph, raises `ValueError` (modelled by `none`), for
every removal sequence. -/
theorem C8_empty_graph_raises (sol : List Nat) :
    calcMetrics ⟨[], []⟩ sol = none := rfl

/-! ### C10: robustness of a one-record trace -/

/-- C10: whenever the replay emits exactly one StepRecord, the trapezoidal
area over the single sample is 0, so the robustness is exactly 0 regardless
of the recorded component size. -/
theorem C10_single_record_robustness_zero (g : Graph) (sol : List Nat)
    (h : (metricsCore g sol).removalSequence.length = 1) :
    (metricsCore g sol).robustness = 0 := by
  obtain ⟨r, hr⟩ := List.length_eq_one.mp h
  have hr' : replay (largestCC g) sol 0 g = [r] := hr
  simp [metricsCore, hr', trapz]

/-- C10 witness: removing node 0 from the edge 0-1 emits one StepRecord and
scores robustness 0. -/
theorem C10_witness :
    (metricsCore ⟨[0, 1], [(0, 1)]⟩ [0]).removalSequence.length = 1 ∧
    (metricsCore ⟨[0, 1], [(0, 1)]⟩ [0]).robustness = 0 :=
  ⟨by decide, C10_single_record_robustness_zero ⟨[0, 1], [(0, 1)]⟩ [0] (by decide)⟩

/-! ### C5: the iteration cap -/

/-- C5: `maxIterations` does not bound the replay: the result of `dismantle`
is entirely independent of the cap, and with cap 1 a three-entry solution on
the path 0-1-2 is replayed in full, producing a trace of 3 > 1 StepRecords. -/
theorem C5_max_iterations_ignored :
    (∀ (evaluate : Graph → ℚ → List Nat × ℚ) (g : Graph) (stepRatio : ℚ) (m1 m2 : Nat),
      dismantle evaluate g stepRatio m1 = dismantle evaluate g stepRatio m2) ∧
    (dismantle (fun _ _ => ([0, 1, 2], 0)) ⟨[0, 1, 2], [(0, 1), (1, 2)]⟩ (1/400) 1).map
      (fun r => r.metrics.removalSequence.length) = some 3 ∧
    1 < 3 := by
  refine ⟨fun evaluate g stepRatio m1 m2 => rfl, rfl, ?_⟩
  decide

/-! ### C1: the robustness formula -/

/-- C1: whenever scoring returns at all (the graph has a node, so line 136
does not raise), the metrics returned are `metricsCore`; an empty trace
scores robustness exactly 1; and a nonempty trace scores the trapezoidal-rule
area under the largest-CC sizes recorded in the trace, divided by the number
of StepRecords times the pre-removal largest-CC size. -/
theorem C1_robustness_is_trapezoid_area (g : Graph) (sol : List Nat)
    (h : g.nodes ≠ []) :
    calcMetrics g sol = some (metricsCore g sol) ∧
    (metricsCore g sol).largestCCEvolution =
      (metricsCore g sol).removalSequence.map (·.largestCCSize) ∧
    (metricsCore g sol).largestCCEvolution.length =
      (metricsCore g sol).removalSequence.length ∧
    ((metricsCore g sol).removalSequence = [] → (metricsCore g sol).robustness = 1) ∧
    ((metricsCore g sol).removalSequence ≠ [] →
      (metricsCore g sol).robustness =
        (∑ i in Finset.range ((metricsCore g sol).largestCCEvolution.length - 1),
          (((metricsCore g sol).largestCCEvolution.getD i 0 : Nat) +
            ((metricsCore g sol).largestCCEvolution.getD (i + 1) 0 : Nat) : ℚ) / 2) /
        (((metricsCore g sol).largestCCEvolution.length : ℚ) * (largestCC g : ℚ))) := by
  refine ⟨by simp [calcMetrics, h], rfl, List.length_map _ _, ?_, ?_⟩
  · intro he
    have he' : replay (largestCC g) sol 0 g = [] := he
    simp [metricsCore, he']
  · intro hne
    have hne' : replay (largestCC g) sol 0 g ≠ [] := hne
    have hie : ((replay (largestCC g) sol 0 g).map (·.largestCCSize)).isEmpty = false := by
      simp [hne']
    show (if ((replay (largestCC g) sol 0 g).map (·.largestCCSize)).isEmpty then (1 : ℚ)
          else trapz ((replay (largestCC g) sol 0 g).map (·.largestCCSize)) /
            ((((replay (largestCC g) sol 0 g).map (·.largestCCSize)).length : ℚ) *
              (largestCC g : ℚ))) =
      (∑ i in Finset.range (((replay (largestCC g) sol 0 g).map (·.largestCCSize)).length - 1),
        ((((replay (largestCC g) sol 0 g).map (·.largestCCSize)).getD i 0 : Nat) +
          (((replay (largestCC g) sol 0 g).map (·.largestCCSize)).getD (i + 1) 0 : Nat) : ℚ) / 2) /
      ((((replay (largestCC g) sol 0 g).map (·.largestCCSize)).length : ℚ) * (largestCC g : ℚ))
    rw [hie, if_neg (by simp), trapz_eq_sum]

/-- C1 witness: on the path 0-1-2 with the full removal sequence the recorded
sizes are [2, 1, 0] and the normalized trapezoidal area is 2/9. -/
theorem C1_witness :
    (metricsCore ⟨[0, 1, 2], [(0, 1), (1, 2)]⟩ [0, 1, 2]).robustness = 2 / 9 := by
  have h := (C1_robustness_is_trapezoid_area ⟨[0, 1, 2], [(0, 1), (1, 2)]⟩ [0, 1, 2]
    (by decide)).2.2.2.2 (by decide)
  have hev : (metricsCore ⟨[0, 1, 2], [(0, 1), (1, 2)]⟩ [0, 1, 2]).largestCCEvolution
      = [2, 1, 0] := by decide
  have hcc : largestCC ⟨[0, 1, 2], [(0, 1), (1, 2)]⟩ = 3 := by decide
  rw [h, hev, hcc]
  norm_num [Finset.sum_range_succ, List.getD]

/-! ### C4: one failing and one succeeding provider -/

/-- C4 amended, general form: in a two-provider batch where the first run
fails and the second succeeds, the failure is recorded as a structured entry
(error description, identifier, display name) without raising and without
aborting the sibling, the sibling's successful result is recorded — but no
comparison is built at all, because `_compare_model_results` is only invoked
when more than one run succeeds. -/
theorem C4_failure_isolated_no_comparison
    (models : String → Except String (Graph → ℚ → List Nat × ℚ)) (g : Graph)
    (c1 c2 : ModelConfig) (e : String) (r : DismantleResult)
    (h1 : dismantleE models g (configName c1) c1.stepRatio c1.maxIterations = .error e)
    (h2 : dismantleE models g (configName c2) c2.stepRatio c2.maxIterations = .ok r) :
    dismantleMulti models g [c1, c2] =
      ⟨[(c1.id, .error ⟨e, c1.id, configName c1⟩),
        (c2.id, .ok ⟨r, genStepByStep g r.solution⟩)], none⟩ := by
  simp [dismantleMulti, runConfig, successfulRuns, h1, h2]

/-- A provider table with one unavailable oracle and one working oracle that
always proposes removing node 0. -/
def demoModels : String → Except String (Graph → ℚ → List Nat × ℚ) := fun modelName =>
  if modelName = "good" then .ok fun _ _ => ([0], 0)
  else .error "OracleUnavailableError: model not loadable"

def demoGraph : Graph := ⟨[0, 1], [(0, 1)]⟩

def cfgBad : ModelConfig := ⟨"bad", none, 1 / 400, 1000⟩

def cfgGood : ModelConfig := ⟨"good", none, 1 / 400, 1000⟩

/-- The result the working oracle produces on `demoGraph`. -/
def goodRun : DismantleResult :=
  ⟨[0], metricsCore demoGraph [0], 0, 1, 2, 1⟩

/-- C4 counterexample: in the two-provider batch with one failure and one
success, exactly one run succeeds and the result carries no comparison entry
at all — there is no ComparisonResult listing the successful summary row and
best-metric fields, contrary to the claim. -/
theorem C4_counterexample :
    (successfulRuns (dismantleMulti demoModels demoGraph [cfgBad, cfgGood]).runs).length = 1 ∧
    (dismantleMulti demoModels demoGraph [cfgBad, cfgGood]).comparison = none :=
  ⟨rfl, rfl⟩

/-- C4 witness: the general theorem instantiated on the concrete two-provider
batch. -/
theorem C4_witness :
    dismantleMulti demoModels demoGraph [cfgBad, cfgGood] =
      ⟨[("bad", .error ⟨"OracleUnavailableError: model not loadable", "bad", "bad"⟩),
        ("good", .ok ⟨goodRun, genStepByStep demoGraph [0]⟩)], none⟩ :=
  C4_failure_isolated_no_comparison demoModels demoGraph cfgBad cfgGood
    "OracleUnavailableError: model not loadable" goodRun rfl rfl

/-! ### C6: the HighDegree baseline -/

theorem pickBetter_foldl_spec (g : Graph) (l : List Nat) :
    ∀ (b v : Nat), l.foldl (pickBetter g) (some b) = some v →
      ∃ l1 l2, b :: l = l1 ++ v :: l2 ∧ (∀ u ∈ l1, degree g u < degree g v) ∧
        ∀ u ∈ l2, degree g u ≤ degree g v := by
  induction l with
  | nil =>
    intro b v h
    simp only [List.foldl_nil, Option.some.injEq] at h
    subst h
    exact ⟨[], [], rfl, by simp, by simp⟩
  | cons x xs ih =>
    intro b v h
    rw [List.foldl_cons] at h
    by_cases hd : degree g x > degree g b
    · rw [show pickBetter g (some b) x = some x by simp [pickBetter, hd]] at h
      obtain ⟨l1, l2, hdec, hlt, hle⟩ := ih x v h
      cases l1 with
      | nil =>
        simp only [List.nil_append, List.cons.injEq] at hdec
        obtain ⟨hvx, hl2⟩ := hdec
        subst hvx; subst hl2
        refine ⟨[b], xs, rfl, ?_, hle⟩
        intro u hu
        rw [List.mem_singleton] at hu
        subst hu
        exact hd
      | cons y l1t =>
        simp only [List.cons_append, List.cons.injEq] at hdec
        obtain ⟨hyx, hrest⟩ := hdec
        subst hyx
        have hxv : degree g x < degree g v := hlt x (List.mem_cons_self x l1t)
        refine ⟨b :: x :: l1t, l2, by simp [hrest], ?_, hle⟩
        intro u hu
        rcases List.mem_cons.mp hu with hub | hu'
        · subst hub; exact Nat.lt_trans hd hxv
        · rcases List.mem_cons.mp hu' with hux | hut
          · subst hux; exact hxv
          · exact hlt u (List.mem_cons_of_mem _ hut)
    · rw [show pickBetter g (some b) x = some b by simp [pickBetter, hd]] at h
      obtain ⟨l1, l2, hdec, hlt, hle⟩ := ih b v h
      cases l1 with
      | nil =>
        simp only [List.nil_append, List.cons.injEq] at hdec
        obtain ⟨hvb, hl2⟩ := hdec
        subst hvb; subst hl2
        refine ⟨[], x :: xs, rfl, by simp, ?_⟩
        intro u hu
        rcases List.mem_cons.mp hu with hux | hu'
        · subst hux; exact Nat.le_of_not_lt hd
        · exact hle u hu'
      | cons y l1t =>
        simp only [List.cons_append, List.cons.injEq] at hdec
        obtain ⟨hyb, hrest⟩ := hdec
        subst hyb
        have hbv : degree g b < degree g v := hlt b (List.mem_cons_self b l1t)
        refine ⟨b :: x :: l1t, l2, by simp [hrest], ?_, hle⟩
        intro u hu
        rcases List.mem_cons.mp hu with hub | hu'
        · subst hub; exact hbv
        · rcases List.mem_cons.mp hu' with hux | hut
          · subst hux; exact Nat.lt_of_le_of_lt (Nat.le_of_not_lt hd) hbv
          · exact hlt u (List.mem_cons_of_mem _ hut)

theorem argmaxDegree_spec (g : Graph) (v : Nat) (h : argmaxDegree g = some v) :
    ∃ l1 l2, g.nodes = l1 ++ v :: l2 ∧ (∀ u ∈ l1, degree g u < degree g v) ∧
      ∀ u ∈ l2, degree g u ≤ degree g v := by
  unfold argmaxDegree at h
  cases hn : g.nodes with
  | nil => rw [hn] at h; simp at h
  | cons x xs =>
    rw [hn, List.foldl_cons, show pickBetter g none x = some x from rfl] at h
    obtain ⟨l1, l2, hdec, hlt, hle⟩ := pickBetter_foldl_spec g xs x v h
    exact ⟨l1, l2, hdec, hlt, hle⟩

theorem argmaxDegree_mem (g : Graph) (v : Nat) (h : argmaxDegree g = some v) :
    v ∈ g.nodes := by
  obtain ⟨l1, l2, hdec, _, _⟩ := argmaxDegree_spec g v h
  rw [hdec]
  simp

theorem foldl_pickBetter_isSome (g : Graph) (l : List Nat) :
    ∀ b : Nat, ∃ v, l.foldl (pickBetter g) (some b) = some v := by
  induction l with
  | nil => intro b; exact ⟨b, rfl⟩
  | cons x xs ih =>
    intro b
    rw [List.foldl_cons]
    by_cases hd : degree g x > degree g b
    · rw [show pickBetter g (some b) x = some x by simp [pickBetter, hd]]
      exact ih x
    · rw [show pickBetter g (some b) x = some b by simp [pickBetter, hd]]
      exact ih b

theorem argmaxDegree_isSome (g : Graph) (hn : g.nodes ≠ []) :
    ∃ v, argmaxDegree g = some v := by
  unfold argmaxDegree
  cases hx : g.nodes with
  | nil => exact absurd hx hn
  | cons x xs =>
    rw [List.foldl_cons, show pickBetter g none x = some x from rfl]
    exact foldl_pickBetter_isSome g xs x

theorem removeNode_nodes_length_lt (g : Graph) (v : Nat) (h : v ∈ g.nodes) :
    (removeNode g v).nodes.length < g.nodes.length := by
  apply List.length_filter_lt_length_iff_exists.mpr
  exact ⟨v, h, by simp⟩

theorem hdaAux_nodes_nil (g : Graph) (hg : g.nodes = []) : ∀ f, hdaAux f g = [] := by
  intro f
  cases f with
  | zero => rfl
  | succ f =>
    have ha : argmaxDegree g = none := by unfold argmaxDegree; rw [hg]; rfl
    simp [hdaAux, ha]

theorem hdaAux_fuel_stable : ∀ (f1 f2 : Nat) (g : Graph),
    g.nodes.length ≤ f1 → g.nodes.length ≤ f2 → hdaAux f1 g = hdaAux f2 g := by
  intro f1
  induction f1 with
  | zero =>
    intro f2 g h1 _
    have hg : g.nodes = [] := List.length_eq_zero.mp (Nat.le_zero.mp h1)
    rw [hdaAux_nodes_nil g hg, hdaAux_nodes_nil g hg]
  | succ f1 ih =>
    intro f2 g h1 h2
    cases f2 with
    | zero =>
      have hg : g.nodes = [] := List.length_eq_zero.mp (Nat.le_zero.mp h2)
      rw [hdaAux_nodes_nil g hg, hdaAux_nodes_nil g hg]
    | succ f2 =>
      simp only [hdaAux]
      by_cases he : g.edges.length > 0
      · simp only [if_pos he]
        cases ha : argmaxDegree g with
        | none => rfl
        | some v =>
          have hv := argmaxDegree_mem g v ha
          have hlt := removeNode_nodes_length_lt g v hv
          have hb1 : (removeNode g v).nodes.length ≤ f1 :=
            Nat.lt_succ_iff.mp (Nat.lt_of_lt_of_le hlt h1)
          have hb2 : (removeNode g v).nodes.length ≤ f2 :=
            Nat.lt_succ_iff.mp (Nat.lt_of_lt_of_le hlt h2)
          show v :: hdaAux f1 (removeNode g v) = v :: hdaAux f2 (removeNode g v)
          rw [ih f2 (removeNode g v) hb1 hb2]
      · simp only [if_neg he]

/-- C6 counterexample: on the triangle whose nodes were inserted in order
[2, 1, 0], every node has degree 2, yet HighDegree selects node 2 first — the
tie is broken by node insertion order, not by lowest node id (which would be
0). -/
theorem C6_counterexample :
    (highDegreeAttack ⟨[2, 1, 0], [(2, 1), (1, 0), (0, 2)]⟩).head? = some 2 ∧
    degree ⟨[2, 1, 0], [(2, 1), (1, 0), (0, 2)]⟩ 0 =
      degree ⟨[2, 1, 0], [(2, 1), (1, 0), (0, 2)]⟩ 2 ∧
    (0 : Nat) ∈ Graph.nodes ⟨[2, 1, 0], [(2, 1), (1, 0), (0, 2)]⟩ ∧
    (2 : Nat) ≠ 0 := by decide

/-- C6 amended: HighDegree stops immediately when no edges remain (so isolated
nodes are never appended); while edges remain it selects `argmaxDegree`, a
node of maximum degree such that every node listed before it in the graph's
node ordering has strictly smaller degree (ties broken by insertion order,
first wins, not by lowest id), removes it, and recurses; and on the 4-cycle
0-1, 1-2, 2-3, 3-0 with nodes in order [0, 1, 2, 3] the first selection is
node 0. -/
theorem C6_greedy_first_in_order :
    (∀ g : Graph, g.edges = [] → highDegreeAttack g = []) ∧
    (∀ (g : Graph) (v : Nat), argmaxDegree g = some v →
      ∃ l1 l2, g.nodes = l1 ++ v :: l2 ∧ (∀ u ∈ l1, degree g u < degree g v) ∧
        ∀ u ∈ l2, degree g u ≤ degree g v) ∧
    (∀ g : Graph, g.edges ≠ [] → g.nodes ≠ [] →
      ∃ v, argmaxDegree g = some v ∧
        highDegreeAttack g = v :: highDegreeAttack (removeNode g v)) ∧
    (highDegreeAttack ⟨[0, 1, 2, 3], [(0, 1), (1, 2), (2, 3), (3, 0)]⟩).head? = some 0 := by
  refine ⟨?_, argmaxDegree_spec, ?_, by decide⟩
  · intro g he
    unfold highDegreeAttack
    cases hn : g.nodes.length with
    | zero => rfl
    | succ n =>
      simp only [hdaAux]
      rw [he]
      simp
  · intro g he hn
    obtain ⟨v, hv⟩ := argmaxDegree_isSome g hn
    refine ⟨v, hv, ?_⟩
    unfold highDegreeAttack
    cases hl : g.nodes.length with
    | zero => exact absurd (List.length_eq_zero.mp hl) hn
    | succ n =>
      simp only [hdaAux]
      rw [if_pos (List.length_pos.mpr he), hv]
      show v :: hdaAux n (removeNode g v) = v :: highDegreeAttack (removeNode g v)
      have hlt := removeNode_nodes_length_lt g v (argmaxDegree_mem g v hv)
      rw [show highDegreeAttack (removeNode g v) =
            hdaAux (removeNode g v).nodes.length (removeNode g v) from rfl]
      rw [hdaAux_fuel_stable n (removeNode g v).nodes.length (removeNode g v)
        (by omega) (Nat.le_refl _)]

/-- C6 witness: the no-edges branch of the amended theorem on a concrete
one-node graph. -/
theorem C6_witness :
    Graph.edges ⟨[0], []⟩ = [] ∧ highDegreeAttack ⟨[0], []⟩ = [] :=
  ⟨rfl, C6_greedy_first_in_order.1 ⟨[0], []⟩ rfl⟩

/-! ### C7 and C9: canonicalization -/

theorem preprocess_eq_pos (g : Graph)
    (hc : List.insertionSort (· ≤ ·) g.nodes =
      List.range (List.insertionSort (· ≤ ·) g.nodes).length) :
    preprocess g = ⟨g.nodes, g.edges.filter fun e => decide (e.1 ≠ e.2)⟩ := by
  show (if List.insertionSort (· ≤ ·) g.nodes =
          List.range (List.insertionSort (· ≤ ·) g.nodes).length then
        (⟨g.nodes, g.edges.filter fun e => decide (e.1 ≠ e.2)⟩ : Graph)
      else
        ⟨g.nodes.map fun v => (List.insertionSort (· ≤ ·) g.nodes).indexOf v,
         (g.edges.filter fun e => decide (e.1 ≠ e.2)).map fun e =>
           ((List.insertionSort (· ≤ ·) g.nodes).indexOf e.1,
            (List.insertionSort (· ≤ ·) g.nodes).indexOf e.2)⟩) =
      (⟨g.nodes, g.edges.filter fun e => decide (e.1 ≠ e.2)⟩ : Graph)
  rw [if_pos hc]

theorem preprocess_eq_neg (g : Graph)
    (hc : ¬ List.insertionSort (· ≤ ·) g.nodes =
      List.range (List.insertionSort (· ≤ ·) g.nodes).length) :
    preprocess g =
      ⟨g.nodes.map fun v => (List.insertionSort (· ≤ ·) g.nodes).indexOf v,
       (g.edges.filter fun e => decide (e.1 ≠ e.2)).map fun e =>
         ((List.insertionSort (· ≤ ·) g.nodes).indexOf e.1,
          (List.insertionSort (· ≤ ·) g.nodes).indexOf e.2)⟩ := by
  show (if List.insertionSort (· ≤ ·) g.nodes =
          List.range (List.insertionSort (· ≤ ·) g.nodes).length then
        (⟨g.nodes, g.edges.filter fun e => decide (e.1 ≠ e.2)⟩ : Graph)
      else
        ⟨g.nodes.map fun v => (List.insertionSort (· ≤ ·) g.nodes).indexOf v,
         (g.edges.filter fun e => decide (e.1 ≠ e.2)).map fun e =>
           ((List.insertionSort (· ≤ ·) g.nodes).indexOf e.1,
            (List.insertionSort (· ≤ ·) g.nodes).indexOf e.2)⟩) = _
  rw [if_neg hc]

theorem map_indexOf_self : ∀ (l : List Nat), l.Nodup →
    l.map (fun v => l.indexOf v) = List.range l.length := by
  intro l
  induction l with
  | nil => intro _; rfl
  | cons a t ih =>
    intro hnd
    rw [List.nodup_cons] at hnd
    obtain ⟨ha, hnd'⟩ := hnd
    calc (a :: t).map (fun v => (a :: t).indexOf v)
        = 0 :: t.map (fun v => t.indexOf v + 1) := by
          rw [List.map_cons, List.indexOf_cons_self]
          congr 1
          apply List.map_congr_left
          intro v hv
          have hav : a ≠ v := fun hEq => ha (hEq ▸ hv)
          rw [List.indexOf_cons_ne t hav]
      _ = 0 :: (t.map fun v => t.indexOf v).map (fun i => i + 1) := by
          rw [List.map_map]
          rfl
      _ = 0 :: (List.range t.length).map (fun i => i + 1) := by rw [ih hnd']
      _ = List.range (t.length + 1) := by
          rw [List.range_succ_eq_map]

theorem preprocess_no_selfloops (g : Graph) (h : WellFormed g) :
    ∀ e ∈ (preprocess g).edges, e.1 ≠ e.2 := by
  by_cases hc : List.insertionSort (· ≤ ·) g.nodes =
      List.range (List.insertionSort (· ≤ ·) g.nodes).length
  · rw [preprocess_eq_pos g hc]
    intro e he
    simpa using List.of_mem_filter he
  · rw [preprocess_eq_neg g hc]
    intro e he
    simp only [List.mem_map] at he
    obtain ⟨e0, he0, rfl⟩ := he
    have h12 : e0.1 ≠ e0.2 := by simpa using List.of_mem_filter he0
    have hmem := h.2 e0 (List.mem_of_mem_filter he0)
    have hmem1 : e0.1 ∈ List.insertionSort (· ≤ ·) g.nodes :=
      ((List.perm_insertionSort _ _).mem_iff).mpr hmem.1
    have hmem2 : e0.2 ∈ List.insertionSort (· ≤ ·) g.nodes :=
      ((List.perm_insertionSort _ _).mem_iff).mpr hmem.2
    intro hEq
    exact h12 ((List.indexOf_inj hmem1 hmem2).mp hEq)

theorem preprocess_nodes_perm (g : Graph) (h : WellFormed g) :
    (preprocess g).nodes.Perm (List.range g.nodes.length) := by
  have hps : (List.insertionSort (· ≤ ·) g.nodes).Perm g.nodes :=
    List.perm_insertionSort _ _
  have hlen : (List.insertionSort (· ≤ ·) g.nodes).length = g.nodes.length :=
    hps.length_eq
  by_cases hc : List.insertionSort (· ≤ ·) g.nodes =
      List.range (List.insertionSort (· ≤ ·) g.nodes).length
  · rw [preprocess_eq_pos g hc]
    have hgoal : g.nodes.Perm (List.insertionSort (· ≤ ·) g.nodes) := hps.symm
    rw [hc, hlen] at hgoal
    exact hgoal
  · rw [preprocess_eq_neg g hc]
    have hnd : (List.insertionSort (· ≤ ·) g.nodes).Nodup := (hps.nodup_iff).mpr h.1
    have hmapped :
        (g.nodes.map fun v => (List.insertionSort (· ≤ ·) g.nodes).indexOf v).Perm
          ((List.insertionSort (· ≤ ·) g.nodes).map
            fun v => (List.insertionSort (· ≤ ·) g.nodes).indexOf v) :=
      (hps.symm).map _
    rw [map_indexOf_self _ hnd, hlen] at hmapped
    exact hmapped

/-- C7 counterexample: `_preprocess_graph` applied to the zero-node graph does
not fail — it returns the empty graph normally (the function has no raise
statement at all; the empty-graph validation lives in the graph processor,
not in canonicalization). -/
theorem C7_counterexample :
    Graph.nodes ⟨[], []⟩ = [] ∧ preprocess ⟨[], []⟩ = ⟨[], []⟩ := ⟨rfl, rfl⟩

/-- C7 amended: canonicalize never fails; a zero-node input is returned as the
empty graph, and for every well-formed input the (pure) transformation returns
a canonical graph: node ids a permutation of 0..n-1 and no self-loops. -/
theorem C7_preprocess_total_and_canonical :
    preprocess ⟨[], []⟩ = ⟨[], []⟩ ∧
    ∀ g : Graph, WellFormed g →
      (preprocess g).nodes.Perm (List.range g.nodes.length) ∧
      ∀ e ∈ (preprocess g).edges, e.1 ≠ e.2 :=
  ⟨rfl, fun g h => ⟨preprocess_nodes_perm g h, preprocess_no_selfloops g h⟩⟩

/-- C7 witness: the graph with nodes [5, 7], an edge and a self-loop is
well-formed; its canonical form has node ids {0, 1} and no self-loop. -/
theorem C7_witness :
    WellFormed ⟨[5, 7], [(5, 7), (5, 5)]⟩ ∧
    ((preprocess ⟨[5, 7], [(5, 7), (5, 5)]⟩).nodes.Perm (List.range 2) ∧
      ∀ e ∈ (preprocess ⟨[5, 7], [(5, 7), (5, 5)]⟩).edges, e.1 ≠ e.2) :=
  ⟨by decide, C7_preprocess_total_and_canonical.2 ⟨[5, 7], [(5, 7), (5, 5)]⟩ (by decide)⟩

theorem preprocess_eq_self (g : Graph)
    (he : g.edges.filter (fun e => decide (e.1 ≠ e.2)) = g.edges)
    (hc : List.insertionSort (· ≤ ·) g.nodes =
      List.range (List.insertionSort (· ≤ ·) g.nodes).length) :
    preprocess g = g := by
  rw [preprocess_eq_pos g hc, he]

/-- C9: canonicalization is idempotent on well-formed graphs — the canonical
form has no self-loops and its sorted node labels are exactly 0..n-1, so the
second pass changes nothing. -/
theorem C9_preprocess_idempotent (g : Graph) (h : WellFormed g) :
    preprocess (preprocess g) = preprocess g := by
  apply preprocess_eq_self
  · apply List.filter_eq_self.mpr
    intro e he
    exact decide_eq_true (preprocess_no_selfloops g h e he)
  · have hperm : (preprocess g).nodes.Perm (List.range g.nodes.length) :=
      preprocess_nodes_perm g h
    have hp2 : (List.insertionSort (· ≤ ·) (preprocess g).nodes).Perm
        (List.range g.nodes.length) := (List.perm_insertionSort _ _).trans hperm
    have hsorted : (List.insertionSort (· ≤ ·) (preprocess g).nodes).Sorted (· ≤ ·) :=
      List.sorted_insertionSort _ _
    have heq : List.insertionSort (· ≤ ·) (preprocess g).nodes =
        List.range g.nodes.length :=
      List.eq_of_perm_of_sorted hp2 hsorted (List.sorted_le_range _)
    rw [heq, List.length_range]

/-- C9 witness: idempotence on the concrete graph with nodes [5, 7], one edge
and one self-loop. -/
theorem C9_witness :
    WellFormed ⟨[5, 7], [(5, 7), (5, 5)]⟩ ∧
    preprocess (preprocess ⟨[5, 7], [(5, 7), (5, 5)]⟩) =
      preprocess ⟨[5, 7], [(5, 7), (5, 5)]⟩ :=
  ⟨by decide, C9_preprocess_idempotent ⟨[5, 7], [(5, 7), (5, 5)]⟩ (by decide)⟩

end Dismantling
